import Mathlib

/-!
Verification of the PhotoJobs workflow engine.

This file gives a shallow embedding of the pure logic of the repository's
commands (`csvgen.py`, `keywords.py`, `rename.py`, `teams.py`, `scale.py`):
filename sanitization and synthesis, batch classification, the fuzzy file
resolver cascade, mapping expansion, group selection, the rename-apply loop
and the exit-status logic.  Filesystem directories are modelled as lists of
file names (the code's decisions are name-only), and machine strings as
`String` (a list of characters).  Theorems about these definitions settle
the specification claims.
-/

/-! ### Character classes (ASCII, mirroring the regex character classes) -/

/-- Embeds `[A-Za-z]`: ASCII letter (code points 65-90 and 97-122). -/
def isLetterB (c : Char) : Bool :=
  (65 ≤ c.toNat && c.toNat ≤ 90) || (97 ≤ c.toNat && c.toNat ≤ 122)

/-- Embeds `\d` over ASCII input: digit (code points 48-57). -/
def isDigitB (c : Char) : Bool := 48 ≤ c.toNat && c.toNat ≤ 57

/-- Python `str.strip` / `str.split` whitespace over ASCII input:
space, tab, newline, carriage return, vertical tab, form feed. -/
def pyIsSpace (c : Char) : Bool :=
  c = ' ' || c = '\t' || c = '\n' || c = '\r' || c = '\x0b' || c = '\x0c'

/-- Python `str.strip()`: drop leading and trailing whitespace. -/
def pyStripList (l : List Char) : List Char :=
  ((l.dropWhile pyIsSpace).reverse.dropWhile pyIsSpace).reverse

/-- Python `str.strip()` on a `String`. -/
def pyStrip (s : String) : String := String.mk (pyStripList s.data)

/-! ### Path stem / suffix (Python `pathlib.PurePath.stem` / `.suffix`) -/

/-- Last path component (`Path(s).name`): everything after the last `/`. -/
def baseName (s : String) : String :=
  String.mk ((s.data.reverse.takeWhile (fun c => c ≠ '/')).reverse)

/-- Split a path name into `(stem, suffix)` exactly as `pathlib` does:
the suffix is `name[i:]` for `i` the position of the last dot, provided
`0 < i < len(name) - 1`; otherwise the stem is the whole name and the
suffix is empty. -/
def pathSplit (name : String) : String × String :=
  let rev := name.data.reverse
  let afterDot := rev.takeWhile (fun c => c ≠ '.')
  match rev.dropWhile (fun c => c ≠ '.') with
  | [] => (name, "")
  | _ :: before =>
    if before = [] ∨ afterDot = [] then (name, "")
    else (String.mk before.reverse, String.mk ('.' :: afterDot.reverse))

/-- Embeds `Path(s).stem`: last component without its extension. -/
def pathStem (s : String) : String := (pathSplit (baseName s)).1

/-- Embeds `Path(s).suffix`: extension of the last component, with the dot. -/
def pathSuffix (s : String) : String := (pathSplit (baseName s)).2

/-! ### Lexicographic string comparison (Python `str` ordering by code point) -/

/-- Strict lexicographic order on character lists by code point. -/
def lexLtChars : List Char → List Char → Bool
  | [], [] => false
  | [], _ :: _ => true
  | _ :: _, [] => false
  | a :: as, b :: bs =>
    if a.toNat < b.toNat then true
    else if b.toNat < a.toNat then false
    else lexLtChars as bs

/-- Embeds `a <= b` on strings, as Python compares them (by code points). -/
def strLe (a b : String) : Bool := !(lexLtChars b.data a.data)

/-! ### csvgen.py -/

/-- Character class `[A-Za-z0-9_-]` kept by `sanitize`. -/
def allowedChar (c : Char) : Bool := isLetterB c || isDigitB c || c = '_' || c = '-'

/-- Embeds `sanitize(value)`: `re.sub(r"[^A-Za-z0-9_-]+", "", value.strip().replace(" ", "_"))`. -/
def sanitize (value : String) : String :=
  String.mk (((pyStripList value.data).map (fun c => if c = ' ' then '_' else c)).filter
    allowedChar)

/-- Maximal runs of consecutive digits, accumulating the current run in
reverse (the matches a digit-run regex walks over, left to right). -/
def digitRunsAux : List Char → List Char → List (List Char)
  | acc, [] => if acc = [] then [] else [acc.reverse]
  | acc, c :: rest =>
    if isDigitB c then digitRunsAux (c :: acc) rest
    else if acc = [] then digitRunsAux [] rest
    else acc.reverse :: digitRunsAux [] rest

/-- Maximal runs of consecutive digits in a character list, in order. -/
def digitRuns (l : List Char) : List (List Char) := digitRunsAux [] l

/-- Last 4 characters of a run (`match.group(1)[-4:]`). -/
def last4 (r : List Char) : String := String.mk (r.drop (r.length - 4))

/-- Embeds `extract_number(stem)`: `re.search(r"(\d{4,})", stem)` — the first maximal
digit run of length at least 4 — then its last 4 digits, else `"0000"`. -/
def extract_number (stem : String) : String :=
  match ((digitRuns stem.data).filter (fun r => 4 ≤ r.length)).head? with
  | some r => last4 r
  | none => "0000"

/-- Embeds `extract_batch_prefix(filename)`: `re.match(r"^([A-Za-z]+)(\d{2})", stem)`,
returning leading letters plus the next two digits, else `"UNKNOWN"`.
(The spec calls this operation `classify_batch`.) -/
def extract_batch_pfx (filename : String) : String :=
  let st := (pathStem filename).data
  let letters := st.takeWhile isLetterB
  match letters, st.dropWhile isLetterB with
  | [], _ => "UNKNOWN"
  | _, d1 :: d2 :: _ =>
    if isDigitB d1 && isDigitB d2 then String.mk (letters ++ [d1, d2]) else "UNKNOWN"
  | _, _ => "UNKNOWN"

/-- A roster/output record: a mapping from column name to string value,
in insertion order (a Python `dict` of strings). -/
abbrev Row : Type := List (String × String)

/-- Embeds `row.get(k, "")`. -/
def getk (row : Row) (k : String) : String :=
  match List.find? (fun p => p.1 == k) row with
  | some p => p.2
  | none => ""

/-- Embeds `row[k] = v` on a copy: replace in place if the key exists (dict keys
are unique, so the first hit is the only one), else append at the end. -/
def setk (row : Row) (k v : String) : Row :=
  match row with
  | [] => [(k, v)]
  | p :: rest => if p.1 == k then (k, v) :: rest else p :: setk rest k v

/-- Embeds `"_".join(parts)`. -/
def joinUnderscore : List String → String
  | [] => ""
  | [x] => x
  | x :: y :: rest => x ++ "_" ++ joinUnderscore (y :: rest)

/-- Embeds `construct_filename(row, file_number, ext, batch_suffix)`: ordered token
list last, first, then conditionally team, number, grade, then the sequence;
underscore-joined, batch suffix appended right before the extension. -/
def construct_filename (row : Row) (file_number ext batch_suffix : String) : String :=
  let last := sanitize (getk row "LASTNAME")
  let first := sanitize (getk row "FIRSTNAME")
  let team := sanitize (getk row "TEAMNAME")
  let grade := sanitize (getk row "GRADE")
  let number := sanitize (getk row "NUMBER")
  let parts := [last, first] ++ (if team ≠ "" then [team] else [])
    ++ (if number ≠ "" then [number] else [])
    ++ (if grade ≠ "" then [grade] else []) ++ [file_number]
  let basename := joinUnderscore parts
  if batch_suffix ≠ "" then basename ++ batch_suffix ++ ext
  else basename ++ ext

/-- Embeds `batch_suffix_map.get(batch_prefix, "")`. -/
def lookupD (m : List (String × String)) (k d : String) : String :=
  match List.find? (fun p => p.1 == k) m with
  | some p => p.2
  | none => d

/-- One output record of `expand_rows` for a given extension: copy the row
and set FILENUMBER, BATCH, PHOTO, NEWFILENAME, SPA. -/
def outputRecord (row : Row) (bmap : List (String × String)) (fname ext : String) : Row :=
  let file_number := extract_number (pathStem fname)
  let batch_pfx := extract_batch_pfx fname
  let batch_sfx := lookupD bmap batch_pfx ""
  let newname := construct_filename row file_number ext batch_sfx
  setk (setk (setk (setk (setk row "FILENUMBER" file_number) "BATCH" batch_pfx)
    "PHOTO" fname) "NEWFILENAME" newname) "SPA" newname

/-- Embeds `expand_rows(row, photo_filenames, batch_suffix_map)`: for each photo
reference, append one `.jpg` record to the first list and one `.png` record
to the second. -/
def expand_rows (row : Row) (photos : List String) (bmap : List (String × String)) :
    List Row × List Row :=
  match photos with
  | [] => ([], [])
  | fname :: rest =>
    let rj := outputRecord row bmap fname ".jpg"
    let rp := outputRecord row bmap fname ".png"
    let (js, ps) := expand_rows row rest bmap
    (rj :: js, rp :: ps)

/-- Embeds `[\r\n;|]`: the separator characters normalized to commas. -/
def isSepChar (c : Char) : Bool := c = '\r' || c = '\n' || c = ';' || c = '|'

/-- Embeds `re.sub(r"[\r\n;|]+", ",", raw)`, walked left to right: the flag says
whether we are inside a separator run whose comma was already emitted. -/
def collapseSepsAux : Bool → List Char → List Char
  | _, [] => []
  | inRun, c :: rest =>
    if isSepChar c then
      if inRun then collapseSepsAux true rest
      else ',' :: collapseSepsAux true rest
    else c :: collapseSepsAux false rest

/-- Embeds `re.sub(r"[\r\n;|]+", ",", raw)`: each maximal separator run becomes one comma. -/
def collapseSeps (l : List Char) : List Char := collapseSepsAux false l

/-- Embeds `cleaned.split(",")`: split at commas, keeping empty chunks. -/
def splitOnComma : List Char → List (List Char)
  | [] => [[]]
  | c :: rest =>
    if c = ',' then [] :: splitOnComma rest
    else
      match splitOnComma rest with
      | [] => [[c]]
      | t :: ts => (c :: t) :: ts

/-- Python `chunk.split()` walked left to right, accumulating the current
token in reverse. -/
def pySplitWsAux : List Char → List Char → List (List Char)
  | acc, [] => if acc = [] then [] else [acc.reverse]
  | acc, c :: rest =>
    if pyIsSpace c then
      if acc = [] then pySplitWsAux [] rest
      else acc.reverse :: pySplitWsAux [] rest
    else pySplitWsAux (c :: acc) rest

/-- Python `chunk.split()`: split on whitespace runs, dropping empty tokens. -/
def pySplitWs (l : List Char) : List (List Char) := pySplitWsAux [] l

/-- Embeds `parse_filenames(raw)`: normalize separators to commas, split, then split
each chunk on whitespace, keeping only non-empty tokens. -/
def parse_filenames (raw : String) : List String :=
  ((splitOnComma (collapseSeps raw.data)).map
    (fun chunk => (pySplitWs chunk).map String.mk)).flatten

/-! ### keywords.py : the fuzzy file resolver `locate_matches` -/

/-- The filesystem as the resolver observes it: the (non-recursive) listing
of the intended directory (`search_root.iterdir()`), and the recursive
listing of the whole root (`root.rglob("*")`), as file names.  The resolver
never opens files, so names are all that matters. -/
structure SearchTree where
  dirFiles : List String
  rootFiles : List String

/-- Embeds `sorted(found)`: lexicographic sort of the matched names (stable). -/
def sortNames (l : List String) : List String :=
  List.insertionSort (fun a b => strLe a b = true) l

/-- Embeds `_norm_token(s)`: `(s or "").strip().lower().replace(" ", "_")`. -/
def normToken (s : Option String) : String :=
  String.mk (((pyStripList (s.getD "").data).map Char.toLower).map
    (fun c => if c = ' ' then '_' else c))

/-- Embeds `s.lower()` on a whole string. -/
def lowerStr (s : String) : String := String.mk (s.data.map Char.toLower)

/-- Embeds `_name_ok(file_stem)`: with no name hints nothing is blocked; otherwise
the lowercased stem must start with one of the name-order candidates. -/
def nameOk (namePfxs : List String) (fileStem : String) : Bool :=
  namePfxs.isEmpty
    || namePfxs.any (fun p => List.isPrefixOf p.data (lowerStr fileStem).data)

/-- Embeds `f.stem == target or f.stem.startswith(target + "_")`. -/
def stemMatchB (target fileStem : String) : Bool :=
  fileStem == target || List.isPrefixOf (target ++ "_").data fileStem.data

/-- Embeds `matches_for_stem_in_dir` / `matches_for_stem_rglob` over a file list. -/
def matchesForStem (files : List String) (target : String) : List String :=
  sortNames (files.filter (fun f => stemMatchB target (pathStem f)))

/-- Embeds `f.stem.startswith(prefix + "_")`. -/
def pfxMatchB (pfx fileStem : String) : Bool :=
  List.isPrefixOf (pfx ++ "_").data fileStem.data

/-- The person-prefix matchers over a file list. -/
def matchesForPfx (files : List String) (pfx : String) : List String :=
  sortNames (files.filter (fun f => pfxMatchB pfx (pathStem f)))

/-- Embeds `s.endswith(t)` as a list computation. -/
def sEndsWith (s t : String) : Bool := List.isPrefixOf t.data.reverse s.data.reverse

/-- Substring containment (`p in s` for strings). -/
def isInfixB (p : List Char) : List Char → Bool
  | [] => p.isEmpty
  | c :: rest => List.isPrefixOf p (c :: rest) || isInfixB p rest

/-- The tail condition:
`f.stem == tail or f.stem.endswith("_" + tail) or ("_" + tail + "_") in (f.stem + "_")`. -/
def tailMatchB (tl fileStem : String) : Bool :=
  fileStem == tl || sEndsWith fileStem ("_" ++ tl)
    || isInfixB ("_" ++ tl ++ "_").data (fileStem ++ "_").data

/-- Embeds `matches_for_tail_in_dir` / `matches_for_tail_rglob` over a file list:
tail condition plus the `_name_ok` gate. -/
def matchesForTail (files : List String) (tl : String) (namePfxs : List String) :
    List String :=
  sortNames (files.filter
    (fun f => tailMatchB tl (pathStem f) && nameOk namePfxs (pathStem f)))

/-- Embeds `re.match(r"^([A-Za-z]+)(\d+)$", stem)`: split a camera-export stem into
its letter part and digit part (the classes are disjoint, so the regex is
deterministic). -/
def camSplit (stem : String) : Option (String × String) :=
  let letters := stem.data.takeWhile isLetterB
  let rest := stem.data.dropWhile isLetterB
  if letters ≠ [] ∧ rest ≠ [] ∧ rest.all isDigitB = true then
    some (String.mk letters, String.mk rest)
  else none

/-- Embeds `re.match(r"^(.*)_\d+$", stem)`, group 1: strip one trailing
`_<digits>` block (the greedy `.*` keeps everything up to the last
underscore that is followed only by digits). -/
def stripNumSuffix (stem : String) : Option String :=
  let rev := stem.data.reverse
  if rev.takeWhile isDigitB = [] then none
  else
    match rev.dropWhile isDigitB with
    | '_' :: before => some (String.mk before.reverse)
    | _ => none

/-- Steps 1-4 at the end of `locate_matches`: stem match in the intended
directory, person-prefix match in the intended directory, stem match by
rglob, person-prefix match by rglob.  (In the source these steps follow the
camera-stem block textually; the block returns early whenever it finds
anything, so reaching them is a straight fall-through.) -/
def locateAfter (tree : SearchTree) (stem : String) : List String :=
  let found := matchesForStem tree.dirFiles stem
  if found ≠ [] then found
  else
    let pfxOpt := stripNumSuffix stem
    let found2 := match pfxOpt with
      | some p => matchesForPfx tree.dirFiles p
      | none => []
    if found2 ≠ [] then found2
    else
      let found3 := matchesForStem tree.rootFiles stem
      if found3 ≠ [] then found3
      else
        match pfxOpt with
        | some p => matchesForPfx tree.rootFiles p
        | none => []

/-- Embeds `locate_matches(spa_value, root, first_name, last_name)`. -/
def locate_matches (spa_value : String) (tree : SearchTree)
    (first_name last_name : Option String) : List String :=
  let spa := pyStrip spa_value
  if spa = "" then []
  else
    let stem := pathStem spa
    let fn := normToken first_name
    let ln := normToken last_name
    let namePfxs : List String :=
      if fn ≠ "" ∧ ln ≠ "" then [ln ++ "_" ++ fn ++ "_", fn ++ "_" ++ ln ++ "_"]
      else []
    match camSplit stem with
    | some (_, num) =>
      let f1 := matchesForStem tree.dirFiles stem
      if f1 ≠ [] then f1
      else
        let f2 := matchesForStem tree.rootFiles stem
        if f2 ≠ [] then f2
        else if 4 ≤ num.data.length then
          let tl := String.mk (num.data.drop (num.data.length - 4))
          let t1 := matchesForTail tree.dirFiles tl namePfxs
          if t1 ≠ [] then t1
          else
            let t2 := matchesForTail tree.rootFiles tl namePfxs
            if t2 ≠ [] then t2 else locateAfter tree stem
        else locateAfter tree stem
    | none => locateAfter tree stem

/-! ### rename.py -/

/-- Embeds `dest_name_with_ext = dest_name_path.stem + source_file.suffix`:
destination keeps its stem but always inherits the resolved source file's
extension. -/
def dest_with_ext (dest_name source_file : String) : String :=
  pathStem dest_name ++ pathSuffix source_file

/-- What happened to one destination in the apply loop. -/
inductive RenameAction
  | copied
  | moved
deriving DecidableEq, Repr

/-- The destination loop of `rename.run` on one resolved source, carrying
the 1-based `dest_idx` of `enumerate(dest_names, start=1)` and
`len(dest_names)`: `move` only when mode is "move" and this is the last
destination, otherwise `copy2`. -/
def processFrom (isMove : Bool) (source_file : String) (idx total : Nat) :
    List String → List (String × RenameAction)
  | [] => []
  | d :: rest =>
    (dest_with_ext d source_file,
      if isMove ∧ idx = total then RenameAction.moved else RenameAction.copied)
      :: processFrom isMove source_file (idx + 1) total rest

/-- All (destination file, action) pairs produced for one resolved source. -/
def process_dests (mode : String) (source_file : String) (dests : List String) :
    List (String × RenameAction) :=
  processFrom (mode == "move") source_file 1 dests.length dests

/-! ### teams.py -/

/-- Embeds `extract_sequence_number(filename)`: `re.findall(r"\d{4,}", stem)`,
last match, last 4 digits; `None` when there is no 4-plus digit run. -/
def extract_sequence_number (filename : String) : Option String :=
  match ((digitRuns (pathStem filename).data).filter (fun r => 4 ≤ r.length)).getLast? with
  | some r => some (last4 r)
  | none => none

/-- One entry of the `existing_files` list built per person-team group. -/
structure ExistingFile where
  path : String
  sequence : String
  teamname : String
  spa : String
deriving DecidableEq, Repr

/-- The sort key relation of
`sorted(existing_files, key=lambda x: x["sequence"])`. -/
def seqLe (a b : ExistingFile) : Prop := strLe a.sequence b.sequence = true

instance : DecidableRel seqLe := fun a b => Bool.decEq (strLe a.sequence b.sequence) true

/-- The stable sort of the group's records by sequence string. -/
def sortBySeq (files : List ExistingFile) : List ExistingFile :=
  List.insertionSort seqLe files

/-- Embeds `existing_files_sorted[0]`: the representative record of a group. -/
def select_first (files : List ExistingFile) : Option ExistingFile :=
  (sortBySeq files).head?

/-! ### Exit-status logic of the commands -/

/-- Embeds `keywords.run` exit status: 1 for each structural precondition failure
(CSV missing, root missing, neither SPA nor Photo Filenames column), else 0;
the per-item counters are not consulted. -/
def keywords_exit (csvExists rootExists hasSpa hasPhoto : Bool)
    (_missingFiles _errors _skippedNoName : Nat) : Nat :=
  if csvExists = false then 1
  else if rootExists = false then 1
  else if (hasSpa || hasPhoto) = false then 1
  else 0

/-- Embeds `rename.run` exit status: 1 when root or plan is missing, the PHOTO /
NEWFILENAME columns are absent, or the plan holds no valid entry; else 0. -/
def rename_exit (rootExists planExists hasCols anyEntries : Bool)
    (_missingSources _errors : Nat) : Nat :=
  if rootExists = false then 1
  else if planExists = false then 1
  else if hasCols = false then 1
  else if anyEntries = false then 1
  else 0

/-- Embeds `teams.run` exit status: 1 when the CSV or root is missing, the team
field or a required field is absent, or no valid person records exist;
else 0. -/
def teams_exit (csvExists rootExists teamFieldOk requiredOk anyRecords : Bool)
    (_missingFiles _errors : Nat) : Nat :=
  if csvExists = false then 1
  else if rootExists = false then 1
  else if teamFieldOk = false then 1
  else if requiredOk = false then 1
  else if anyRecords = false then 1
  else 0

/-- Per-item outcome in the `scale.run` loop: output already exists
(skipped), scaled successfully, or `scale_image` failed. -/
inductive ScaleItem
  | skipExisting
  | ok
  | fail
deriving DecidableEq, Repr

/-- The counters `(successful, skipped, failed)` after the whole loop:
every item is processed; a failure only increments `failed`. -/
def scale_counts : List ScaleItem → Nat × Nat × Nat
  | [] => (0, 0, 0)
  | i :: rest =>
    let r := scale_counts rest
    match i with
    | ScaleItem.ok => (r.1 + 1, r.2.1, r.2.2)
    | ScaleItem.skipExisting => (r.1, r.2.1 + 1, r.2.2)
    | ScaleItem.fail => (r.1, r.2.1, r.2.2 + 1)

/-- Embeds `scale.run` exit status: 1 on structural failures, 0 when no images are
found, otherwise `0 if failed == 0 else 1`. -/
def scale_run (rootExists isDir : Bool) (size : Int) (items : List ScaleItem) : Nat :=
  if rootExists = false then 1
  else if isDir = false then 1
  else if size ≤ 0 then 1
  else if items.isEmpty then 0
  else if (scale_counts items).2.2 = 0 then 0 else 1

/-! ### Order properties of the lexicographic comparison -/

/-- A list is never lexicographically below itself. -/
theorem lexLt_irrefl : ∀ x : List Char, lexLtChars x x = false
  | [] => rfl
  | a :: as => by
    simp only [lexLtChars, Nat.lt_irrefl, if_false]
    exact lexLt_irrefl as

/-- Lexicographic strict order is asymmetric. -/
theorem lexLt_asymm : ∀ x y : List Char, lexLtChars x y = true → lexLtChars y x = false
  | [], [] => by simp [lexLtChars]
  | [], _ :: _ => by simp [lexLtChars]
  | _ :: _, [] => by simp [lexLtChars]
  | a :: as, b :: bs => by
    simp only [lexLtChars]
    intro h
    by_cases h1 : a.toNat < b.toNat
    · have h2 : ¬ b.toNat < a.toNat := by omega
      simp [h1, h2]
    · by_cases h2 : b.toNat < a.toNat
      · simp [h1, h2] at h
      · simp only [h1, h2, if_false] at h ⊢
        exact lexLt_asymm as bs h

/-- Two non-inversions compose: the negative form of transitivity. -/
theorem lexLt_neg_trans : ∀ x y z : List Char,
    lexLtChars y x = false → lexLtChars z y = false → lexLtChars z x = false := by
  intro x
  induction x with
  | nil =>
    intro y z h1 h2
    cases z with
    | nil => rfl
    | cons c cs => rfl
  | cons a as ih =>
    intro y z h1 h2
    cases z with
    | nil =>
      cases y with
      | nil => simp [lexLtChars] at h1
      | cons b bs => simp [lexLtChars] at h2
    | cons c cs =>
      cases y with
      | nil => simp [lexLtChars] at h1
      | cons b bs =>
        simp only [lexLtChars] at h1 h2 ⊢
        by_cases hba : b.toNat < a.toNat
        · simp [hba] at h1
        · by_cases hcb : c.toNat < b.toNat
          · simp [hcb] at h2
          · have hca : ¬ c.toNat < a.toNat := by omega
            by_cases hac : a.toNat < c.toNat
            · simp [hca, hac]
            · have hab : ¬ a.toNat < b.toNat := by omega
              have hbc : ¬ b.toNat < c.toNat := by omega
              simp only [hba, hab, if_false] at h1
              simp only [hcb, hbc, if_false] at h2
              simp only [hca, hac, if_false]
              exact ih bs cs h1 h2

/-- The relation `strLe` is reflexive. -/
theorem strLe_refl (a : String) : strLe a a = true := by
  simp [strLe, lexLt_irrefl]

/-- The relation `strLe` is total. -/
theorem strLe_total (a b : String) : strLe a b = true ∨ strLe b a = true := by
  by_cases h : lexLtChars b.data a.data = true
  · right
    simp [strLe, lexLt_asymm b.data a.data h]
  · left
    simp [strLe]
    simpa using h

/-- The relation `strLe` is transitive. -/
theorem strLe_trans (a b c : String) :
    strLe a b = true → strLe b c = true → strLe a c = true := by
  simp only [strLe, Bool.not_eq_true']
  exact fun h1 h2 => lexLt_neg_trans a.data b.data c.data h1 h2

instance : IsTotal ExistingFile seqLe :=
  ⟨fun a b => strLe_total a.sequence b.sequence⟩

instance : IsTrans ExistingFile seqLe :=
  ⟨fun a b c h1 h2 => strLe_trans a.sequence b.sequence c.sequence h1 h2⟩

/-! ### List and record helper lemmas -/

/-- The functions `takeWhile`/`dropWhile` walk past a block that satisfies the predicate
and stop at the first element that does not. -/
theorem takeWhile_all_cons_append {α : Type} (p : α → Bool) :
    ∀ (L : List α) (d : α) (r : List α), (∀ a ∈ L, p a = true) → p d = false →
      (L ++ d :: r).takeWhile p = L ∧ (L ++ d :: r).dropWhile p = d :: r := by
  intro L
  induction L with
  | nil =>
    intro d r _ hd
    simp [List.takeWhile_cons, List.dropWhile_cons, hd]
  | cons a as ih =>
    intro d r hall hd
    have ha : p a = true := hall a (List.mem_cons_self a as)
    have ih' := ih d r (fun x hx => hall x (List.mem_cons_of_mem a hx)) hd
    simp [List.takeWhile_cons, List.dropWhile_cons, ha, ih'.1, ih'.2]

/-- ASCII digits are not ASCII letters: the regex classes are disjoint. -/
theorem digit_not_letter {c : Char} (h : isDigitB c = true) : isLetterB c = false := by
  simp only [isDigitB, Bool.and_eq_true, decide_eq_true_eq] at h
  simp only [isLetterB, Bool.or_eq_false_iff, Bool.and_eq_false_iff,
    decide_eq_false_iff_not, Nat.not_le]
  omega

/-- Reading back the key just written by `setk` yields the new value. -/
theorem getk_setk_same : ∀ (r : Row) (k v : String), getk (setk r k v) k = v := by
  intro r k v
  induction r with
  | nil => simp [setk, getk, List.find?_cons]
  | cons p ps ih =>
    cases hp : (p.1 == k) with
    | true => simp [setk, getk, List.find?_cons, hp]
    | false =>
      simp only [setk, hp, Bool.false_eq_true, if_false]
      simp only [getk, List.find?_cons, hp]
      simpa [getk] using ih

/-- Reading a different key is unchanged by `setk`. -/
theorem getk_setk_ne : ∀ (r : Row) (k' k v : String), (k' == k) = false →
    getk (setk r k' v) k = getk r k := by
  intro r k' k v hne
  induction r with
  | nil => simp [setk, getk, List.find?_cons, hne]
  | cons p ps ih =>
    cases hp : (p.1 == k') with
    | true =>
      have hpk : (p.1 == k) = false := by
        rw [beq_iff_eq] at hp
        subst hp
        exact hne
      simp only [setk, hp, if_true]
      simp only [getk, List.find?_cons, hne, hpk]
    | false =>
      simp only [setk, hp, Bool.false_eq_true, if_false]
      cases hpk : (p.1 == k) with
      | true => simp only [getk, List.find?_cons, hpk]
      | false =>
        simp only [getk, List.find?_cons, hpk]
        simpa [getk] using ih

/-- The FILENUMBER field of one expanded output record. -/
theorem getk_outputRecord_filenumber (row : Row) (m : List (String × String)) (f e : String) :
    getk (outputRecord row m f e) "FILENUMBER" = extract_number (pathStem f) := by
  unfold outputRecord
  rw [getk_setk_ne, getk_setk_ne, getk_setk_ne, getk_setk_ne, getk_setk_same]
  all_goals decide

/-- The BATCH field of one expanded output record. -/
theorem getk_outputRecord_batch (row : Row) (m : List (String × String)) (f e : String) :
    getk (outputRecord row m f e) "BATCH" = extract_batch_pfx f := by
  unfold outputRecord
  rw [getk_setk_ne, getk_setk_ne, getk_setk_ne, getk_setk_same]
  all_goals decide

/-- The SPA field of one expanded output record. -/
theorem getk_outputRecord_spa (row : Row) (m : List (String × String)) (f e : String) :
    getk (outputRecord row m f e) "SPA"
      = construct_filename row (extract_number (pathStem f)) e
          (lookupD m (extract_batch_pfx f) "") := by
  unfold outputRecord
  rw [getk_setk_same]

/-- Unfolded, `expand_rows` is the pair of per-extension maps over the photo list. -/
theorem expand_rows_eq (row : Row) (m : List (String × String)) : ∀ ps : List String,
    expand_rows row ps m
      = (ps.map (fun f => outputRecord row m f ".jpg"),
         ps.map (fun f => outputRecord row m f ".png"))
  | [] => rfl
  | f :: rest => by
    simp only [expand_rows, expand_rows_eq row m rest, List.map_cons]

/-! ### Claim theorems -/

/-- Claim C5 (confirmed): for LASTNAME "Allen", FIRSTNAME "Brielle",
TEAMNAME "Falcons", NUMBER "42", no GRADE, sequence "6537", extension
".jpg" and no batch suffix, `construct_filename` returns exactly
"Allen_Brielle_Falcons_42_6537.jpg"; with a GRADE "12" added, the grade
token lands after the number token and before the sequence, witnessing the
fixed token order last, first, team, number, grade, sequence. -/
theorem C5_round_trip :
    construct_filename
      [("LASTNAME", "Allen"), ("FIRSTNAME", "Brielle"), ("TEAMNAME", "Falcons"),
        ("NUMBER", "42")] "6537" ".jpg" "" = "Allen_Brielle_Falcons_42_6537.jpg" ∧
    construct_filename
      [("LASTNAME", "Allen"), ("FIRSTNAME", "Brielle"), ("TEAMNAME", "Falcons"),
        ("NUMBER", "42"), ("GRADE", "12")] "6537" ".jpg" ""
      = "Allen_Brielle_Falcons_42_12_6537.jpg" := by
  decide

/-- Claim C6 counterexample: `sanitize` does not replace every internal
whitespace character with an underscore — an internal tab is deleted by the
character filter instead, so sanitize "a\tb" is "ab", not "a_b". -/
theorem C6_counterexample : sanitize "a\tb" = "ab" ∧ ("ab" : String) ≠ "a_b" := by
  decide

/-- Claim C6 (corrected): `sanitize` trims surrounding whitespace, replaces
internal space characters (U+0020 only) with underscores, and removes every
other character outside `[A-Za-z0-9_-]` — including non-space whitespace such
as tabs, which are deleted rather than replaced; it is total and may return
the empty string. -/
theorem C6_sanitize_amended :
    (∀ v : String, (sanitize v).data.all allowedChar = true) ∧
    sanitize "  Allen Brielle  " = "Allen_Brielle" ∧
    sanitize "a\tb" = "ab" ∧
    sanitize "?!*" = "" ∧
    sanitize "" = "" := by
  refine ⟨?_, by decide, by decide, by decide, by decide⟩
  intro v
  rw [List.all_eq_true]
  intro a ha
  exact List.of_mem_filter ha

/-- Claim C2 (confirmed): on a tree containing only
"Allen_Brielle_6537_3.jpg", nominal "JS106537.jpg" with person hint
(Brielle, Allen) resolves to that file through the camera-tail fallback on
tail "6537"; with a person hint (Pat, Smith) whose two name orderings
"smith_pat_" / "pat_smith_" prefix no candidate stem, resolution returns
the empty list. -/
theorem C2_resolver_tail_fallback :
    locate_matches "JS106537.jpg"
      ⟨["Allen_Brielle_6537_3.jpg"], ["Allen_Brielle_6537_3.jpg"]⟩
      (some "Brielle") (some "Allen") = ["Allen_Brielle_6537_3.jpg"] ∧
    locate_matches "JS106537.jpg"
      ⟨["Allen_Brielle_6537_3.jpg"], ["Allen_Brielle_6537_3.jpg"]⟩
      (some "Pat") (some "Smith") = [] ∧
    nameOk ["smith_pat_", "pat_smith_"] "Allen_Brielle_6537_3" = false := by
  decide

/-- Claim C1 counterexample: for nominal "Allen_Brielle_6537.jpg" on a tree
whose intended directory holds only the person-prefixed file
"Allen_Brielle_9999.jpg" while an exact-stem (rule 1) match
"Allen_Brielle_6537.jpg" exists elsewhere under the root, `locate_matches`
returns the rule-3 match from the intended directory — the recursive rule-1
match does NOT take precedence, refuting the claimed rule-by-rule
dir-then-recursive ordering. -/
theorem C1_counterexample :
    locate_matches "Allen_Brielle_6537.jpg"
      ⟨["Allen_Brielle_9999.jpg"], ["Allen_Brielle_6537.jpg", "Allen_Brielle_9999.jpg"]⟩
      none none = ["Allen_Brielle_9999.jpg"] ∧
    matchesForStem ["Allen_Brielle_6537.jpg", "Allen_Brielle_9999.jpg"] "Allen_Brielle_6537"
      = ["Allen_Brielle_6537.jpg"] ∧
    (["Allen_Brielle_9999.jpg"] : List String) ≠ ["Allen_Brielle_6537.jpg"] := by
  decide

/-- Claim C1 (corrected): for a non-camera-pattern nominal the cascade order
is stem match in the intended directory, then person-prefix match in the
intended directory, then stem match recursively, then person-prefix match
recursively — so whenever the stem yields nothing in the intended directory
but the person-prefix does, the person-prefix match in the intended
directory is returned, regardless of what a recursive stem search over the
root would find. -/
theorem C1_cascade_amended (spa : String) (tree : SearchTree) (fn ln : Option String)
    (p : String)
    (hne : ¬ pyStrip spa = "")
    (hcam : camSplit (pathStem (pyStrip spa)) = none)
    (h1 : matchesForStem tree.dirFiles (pathStem (pyStrip spa)) = [])
    (hp : stripNumSuffix (pathStem (pyStrip spa)) = some p)
    (h2 : matchesForPfx tree.dirFiles p ≠ []) :
    locate_matches spa tree fn ln = matchesForPfx tree.dirFiles p := by
  simp only [locate_matches, hcam]
  rw [if_neg hne]
  simp [locateAfter, h1, hp, h2]

/-- Claim C1 witness: the amended cascade ordering instantiated on the
counterexample tree, with every hypothesis discharged by computation. -/
theorem C1_cascade_amended_witness :
    (¬ pyStrip "Allen_Brielle_6537.jpg" = "") ∧
    camSplit (pathStem (pyStrip "Allen_Brielle_6537.jpg")) = none ∧
    matchesForStem ["Allen_Brielle_9999.jpg"] (pathStem (pyStrip "Allen_Brielle_6537.jpg"))
      = [] ∧
    stripNumSuffix (pathStem (pyStrip "Allen_Brielle_6537.jpg")) = some "Allen_Brielle" ∧
    matchesForPfx ["Allen_Brielle_9999.jpg"] "Allen_Brielle" ≠ [] ∧
    locate_matches "Allen_Brielle_6537.jpg"
      ⟨["Allen_Brielle_9999.jpg"], ["Allen_Brielle_6537.jpg", "Allen_Brielle_9999.jpg"]⟩
      none none
      = matchesForPfx ["Allen_Brielle_9999.jpg"] "Allen_Brielle" :=
  ⟨by decide, by decide, by decide, by decide, by decide,
    C1_cascade_amended "Allen_Brielle_6537.jpg"
      ⟨["Allen_Brielle_9999.jpg"], ["Allen_Brielle_6537.jpg", "Allen_Brielle_9999.jpg"]⟩
      none none "Allen_Brielle" (by decide) (by decide) (by decide) (by decide) (by decide)⟩

/-- Claim C3 (confirmed): `expand_rows` yields exactly one `.jpg` and one
`.png` output record per parsed photo reference — the two lists each have
the length of the reference list, the i-th records of both share the same
FILENUMBER and BATCH (both derived from the i-th reference), and their SPA
names differ only in the extension passed to `construct_filename`; a
reference string with an empty (malformed) chunk still parses to its
well-formed references, and a record whose string parses to 3 references
expands to exactly 6 output records. -/
theorem C3_expansion_fanout (row : Row) (m : List (String × String)) (ps : List String) :
    (expand_rows row ps m).1.length = ps.length ∧
    (expand_rows row ps m).2.length = ps.length ∧
    (expand_rows row ps m).1.map (fun r => getk r "FILENUMBER")
      = ps.map (fun f => extract_number (pathStem f)) ∧
    (expand_rows row ps m).2.map (fun r => getk r "FILENUMBER")
      = ps.map (fun f => extract_number (pathStem f)) ∧
    (expand_rows row ps m).1.map (fun r => getk r "BATCH")
      = ps.map (fun f => extract_batch_pfx f) ∧
    (expand_rows row ps m).2.map (fun r => getk r "BATCH")
      = ps.map (fun f => extract_batch_pfx f) ∧
    (expand_rows row ps m).1.map (fun r => getk r "SPA")
      = ps.map (fun f => construct_filename row (extract_number (pathStem f)) ".jpg"
          (lookupD m (extract_batch_pfx f) "")) ∧
    (expand_rows row ps m).2.map (fun r => getk r "SPA")
      = ps.map (fun f => construct_filename row (extract_number (pathStem f)) ".png"
          (lookupD m (extract_batch_pfx f) "")) ∧
    parse_filenames "IMG_1234.jpg, ,IMG_5678.jpg;IMG_9012.jpg"
      = ["IMG_1234.jpg", "IMG_5678.jpg", "IMG_9012.jpg"] ∧
    (expand_rows row (parse_filenames "IMG_1234.jpg, ,IMG_5678.jpg;IMG_9012.jpg") m).1.length
      + (expand_rows row
          (parse_filenames "IMG_1234.jpg, ,IMG_5678.jpg;IMG_9012.jpg") m).2.length = 6 := by
  have hparse : parse_filenames "IMG_1234.jpg, ,IMG_5678.jpg;IMG_9012.jpg"
      = ["IMG_1234.jpg", "IMG_5678.jpg", "IMG_9012.jpg"] := by decide
  refine ⟨?_, ?_, ?_, ?_, ?_, ?_, ?_, ?_, hparse, ?_⟩ <;>
    simp [expand_rows_eq, List.map_map, Function.comp, hparse,
      getk_outputRecord_filenumber, getk_outputRecord_batch, getk_outputRecord_spa]

/-- Claim C4 (confirmed): the applied destination name is the destination
stem plus the resolved source file's extension, so whenever the plan's
destination implies ".jpg" but the source resolved to a ".png" file, the
produced destination file ends in ".png" and never in ".jpg". -/
theorem C4_extension_override (d s : String)
    (_hd : pathSuffix d = ".jpg") (hs : pathSuffix s = ".png") :
    sEndsWith (dest_with_ext d s) ".png" = true ∧
    sEndsWith (dest_with_ext d s) ".jpg" = false := by
  unfold dest_with_ext
  rw [hs]
  constructor
  · unfold sEndsWith
    rw [String.data_append, List.reverse_append]
    rw [ List.isPrefixOf_iff_prefix]
    exact List.prefix_append _ _
  · unfold sEndsWith
    rw [String.data_append, List.reverse_append]
    have e1 : (".png" : String).data.reverse = ['g', 'n', 'p', '.'] := by decide
    have e2 : (".jpg" : String).data.reverse = ['g', 'p', 'j', '.'] := by decide
    rw [e1, e2]
    have h1 : (('p' : Char) == 'n') = false := by decide
    simp [List.isPrefixOf, h1]

/-- Claim C4 witness: a plan entry whose destination "Allen_Brielle_1234.jpg"
implies ".jpg" while the resolved source "JS106537.png" is a ".png" file
produces a destination ending in ".png", not ".jpg". -/
theorem C4_extension_override_witness :
    pathSuffix "Allen_Brielle_1234.jpg" = ".jpg" ∧
    pathSuffix "JS106537.png" = ".png" ∧
    sEndsWith (dest_with_ext "Allen_Brielle_1234.jpg" "JS106537.png") ".png" = true ∧
    sEndsWith (dest_with_ext "Allen_Brielle_1234.jpg" "JS106537.png") ".jpg" = false :=
  ⟨by decide, by decide,
    (C4_extension_override "Allen_Brielle_1234.jpg" "JS106537.png" (by decide) (by decide)).1,
    (C4_extension_override "Allen_Brielle_1234.jpg" "JS106537.png" (by decide) (by decide)).2⟩

/-- Claim C7 (confirmed): `extract_batch_pfx` returns the leading letters
concatenated with the two digits that follow whenever the filename stem
starts with one-or-more letters followed by two digits, and the sentinel
"UNKNOWN" in every other case; in particular "JS106537.jpg" yields "JS10"
and "Allen_Brielle_6537_3.jpg" yields "UNKNOWN". -/
theorem C7_classify_batch :
    (∀ (fname : String) (L : List Char) (d1 d2 : Char) (r : List Char),
      (pathStem fname).data = L ++ d1 :: d2 :: r → L ≠ [] → L.all isLetterB = true →
      isDigitB d1 = true → isDigitB d2 = true →
      extract_batch_pfx fname = String.mk (L ++ [d1, d2])) ∧
    (∀ fname : String, extract_batch_pfx fname = "UNKNOWN" ∨
      ∃ L d1 d2 r, (pathStem fname).data = L ++ d1 :: d2 :: r ∧ L ≠ [] ∧
        L.all isLetterB = true ∧ isDigitB d1 = true ∧ isDigitB d2 = true ∧
        extract_batch_pfx fname = String.mk (L ++ [d1, d2])) ∧
    extract_batch_pfx "JS106537.jpg" = "JS10" ∧
    extract_batch_pfx "Allen_Brielle_6537_3.jpg" = "UNKNOWN" := by
  refine ⟨?_, ?_, by decide, by decide⟩
  · intro fname L d1 d2 r hst hL hall hd1 hd2
    have hsplit := takeWhile_all_cons_append isLetterB L d1 (d2 :: r)
      (fun a ha => List.all_eq_true.mp hall a ha) (digit_not_letter hd1)
    simp only [extract_batch_pfx, hst, hsplit.1, hsplit.2]
    cases L with
    | nil => exact absurd rfl hL
    | cons x xs => simp [hd1, hd2]
  · intro fname
    cases hTW : (pathStem fname).data.takeWhile isLetterB with
    | nil => left; simp [extract_batch_pfx, hTW]
    | cons x xs =>
      cases hDW : (pathStem fname).data.dropWhile isLetterB with
      | nil => left; simp [extract_batch_pfx, hTW, hDW]
      | cons d1 rest1 =>
        cases rest1 with
        | nil => left; simp [extract_batch_pfx, hTW, hDW]
        | cons d2 rest2 =>
          cases hd1 : isDigitB d1 with
          | false => left; simp [extract_batch_pfx, hTW, hDW, hd1]
          | true =>
            cases hd2 : isDigitB d2 with
            | false => left; simp [extract_batch_pfx, hTW, hDW, hd1, hd2]
            | true =>
              right
              refine ⟨x :: xs, d1, d2, rest2, ?_, by simp, ?_, hd1, hd2, ?_⟩
              · conv_lhs => rw [← List.takeWhile_append_dropWhile isLetterB
                  (pathStem fname).data]
                rw [hTW, hDW]
              · rw [← hTW]
                exact List.all_takeWhile
              · simp [extract_batch_pfx, hTW, hDW, hd1, hd2]

/-- Claim C7 witness: the positive characterization applied to the stem
decomposition of "JS106537.jpg" — letters "JS", digits '1' '0', remainder
"6537" — with every hypothesis discharged by computation. -/
theorem C7_classify_batch_witness :
    (pathStem "JS106537.jpg").data = ['J', 'S'] ++ '1' :: '0' :: "6537".data ∧
    extract_batch_pfx "JS106537.jpg" = String.mk (['J', 'S'] ++ ['1', '0']) :=
  ⟨by decide,
    C7_classify_batch.1 "JS106537.jpg" ['J', 'S'] '1' '0' "6537".data
      (by decide) (by decide) (by decide) (by decide) (by decide)⟩

/-- Claim C8 (confirmed): within a group the representative is the head of
the stable sort by sequence-number string — it exists for every non-empty
group, belongs to the group, and its sequence string is less-or-equal to
every member's; for two records with the identical sequence the
first-inserted record is selected, shown both in general and on a concrete
pair with sequence "1234" and differing PHOTO files. -/
theorem C8_group_first_selection :
    (∀ files : List ExistingFile, files ≠ [] →
      ∃ r, select_first files = some r ∧ r ∈ files ∧
        ∀ x ∈ files, strLe r.sequence x.sequence = true) ∧
    (∀ a b : ExistingFile, a.sequence = b.sequence → select_first [a, b] = some a) ∧
    select_first
      [⟨"JS106537.png", "1234", "Falcons", "Allen_Brielle_Falcons_1234.png"⟩,
       ⟨"JS206537.png", "1234", "Falcons", "Allen_Brielle_Falcons_1234_2.png"⟩]
      = some ⟨"JS106537.png", "1234", "Falcons", "Allen_Brielle_Falcons_1234.png"⟩ := by
  refine ⟨?_, ?_, by decide⟩
  · intro files hne
    rcases hsort : sortBySeq files with _ | ⟨r, t⟩
    · exfalso
      have hperm := List.perm_insertionSort seqLe files
      rw [show List.insertionSort seqLe files = sortBySeq files from rfl, hsort] at hperm
      exact hne hperm.symm.eq_nil
    · refine ⟨r, ?_, ?_, ?_⟩
      · simp [select_first, hsort]
      · have hperm := List.perm_insertionSort seqLe files
        have hmem : r ∈ sortBySeq files := by
          rw [hsort]
          exact List.mem_cons_self r t
        exact hperm.mem_iff.mp hmem
      · intro x hx
        have hperm := List.perm_insertionSort seqLe files
        have hx' : x ∈ sortBySeq files := hperm.mem_iff.mpr hx
        rw [hsort] at hx'
        rcases List.mem_cons.mp hx' with h | h
        · subst h
          exact strLe_refl _
        · have hsorted := List.sorted_insertionSort seqLe files
          rw [show List.insertionSort seqLe files = sortBySeq files from rfl, hsort]
            at hsorted
          exact List.rel_of_sorted_cons hsorted x h
  · intro a b hseq
    have hle : seqLe a b := by
      unfold seqLe
      rw [hseq]
      exact strLe_refl _
    simp [select_first, sortBySeq, List.insertionSort, List.orderedInsert, hle]

/-- Claim C8 witness: the general selection facts instantiated on a concrete
two-record group, with the non-emptiness and equal-sequence hypotheses
discharged by computation. -/
theorem C8_group_first_selection_witness :
    (∃ r, select_first
        [⟨"a.png", "5678", "T", "x.png"⟩, ⟨"b.png", "1234", "T", "y.png"⟩] = some r ∧
      r ∈ [⟨"a.png", "5678", "T", "x.png"⟩, (⟨"b.png", "1234", "T", "y.png"⟩ : ExistingFile)] ∧
      ∀ x ∈ [⟨"a.png", "5678", "T", "x.png"⟩, (⟨"b.png", "1234", "T", "y.png"⟩ : ExistingFile)],
        strLe r.sequence x.sequence = true) ∧
    select_first [⟨"a.png", "1234", "T", "x.png"⟩, ⟨"b.png", "1234", "T", "y.png"⟩]
      = some ⟨"a.png", "1234", "T", "x.png"⟩ :=
  ⟨C8_group_first_selection.1 _ (by decide),
    C8_group_first_selection.2.1 ⟨"a.png", "1234", "T", "x.png"⟩
      ⟨"b.png", "1234", "T", "y.png"⟩ rfl⟩

/-- Claim C9 counterexample: a completed `scale` run in which one image
failed to scale (both items were processed, so the run completed) exits
with status 1, not 0 — refuting the claim that every completed workflow
run exits 0 despite per-item failures. -/
theorem C9_counterexample :
    scale_run true true 2000 [ScaleItem.ok, ScaleItem.fail] = 1 ∧
    scale_counts [ScaleItem.ok, ScaleItem.fail] = (1, 0, 1) ∧
    (1 : Nat) ≠ 0 := by
  decide

/-- Claim C9 (corrected): the keywords, rename and teams commands exit 0
whenever their structural preconditions hold, whatever the per-item failure
counters say; every item of a scale run is processed (failures never abort
the loop); but the scale command alone exits 1, not 0, whenever at least
one per-item scaling failure occurred. -/
theorem C9_exit_status_amended :
    (∀ (hasSpa hasPhoto : Bool) (m e s : Nat), (hasSpa || hasPhoto) = true →
      keywords_exit true true hasSpa hasPhoto m e s = 0) ∧
    (∀ m e : Nat, rename_exit true true true true m e = 0) ∧
    (∀ m e : Nat, teams_exit true true true true true m e = 0) ∧
    (∀ items : List ScaleItem,
      (scale_counts items).1 + (scale_counts items).2.1 + (scale_counts items).2.2
        = items.length) ∧
    (∀ (size : Int) (items : List ScaleItem), 0 < size → items ≠ [] →
      (scale_counts items).2.2 ≠ 0 → scale_run true true size items = 1) := by
  refine ⟨?_, ?_, ?_, ?_, ?_⟩
  · intro hasSpa hasPhoto m e s h
    simp [keywords_exit, h]
  · intro m e
    simp [rename_exit]
  · intro m e
    simp [teams_exit]
  · intro items
    induction items with
    | nil => rfl
    | cons i rest ih =>
      cases i <;> simp [scale_counts] <;> omega
  · intro size items hsize hne hfail
    have h1 : ¬ size ≤ 0 := by omega
    have h2 : items.isEmpty = false := by
      cases items with
      | nil => exact absurd rfl hne
      | cons a l => rfl
    simp [scale_run, h1, h2, hfail]

/-- Claim C9 witness: the amended exit-status facts at concrete inputs —
keywords with 3 missing files and 2 errors still exits 0, and a scale run
with one failed item exits 1 — with every hypothesis discharged by
computation. -/
theorem C9_exit_status_amended_witness :
    keywords_exit true true true false 3 2 1 = 0 ∧
    rename_exit true true true true 4 2 = 0 ∧
    teams_exit true true true true true 1 1 = 0 ∧
    (scale_counts [ScaleItem.ok, ScaleItem.fail]).1
      + (scale_counts [ScaleItem.ok, ScaleItem.fail]).2.1
      + (scale_counts [ScaleItem.ok, ScaleItem.fail]).2.2 = 2 ∧
    scale_run true true 2000 [ScaleItem.fail] = 1 :=
  ⟨C9_exit_status_amended.1 true false 3 2 1 (by decide),
    C9_exit_status_amended.2.1 4 2,
    C9_exit_status_amended.2.2.1 1 1,
    C9_exit_status_amended.2.2.2.1 [ScaleItem.ok, ScaleItem.fail],
    C9_exit_status_amended.2.2.2.2 2000 [ScaleItem.fail] (by decide) (by decide) (by decide)⟩

/-- The move-mode destination loop, started at any index: the loop copies
every destination whose 1-based index is below the total and moves the one
whose index equals the total. -/
theorem processFrom_move (src : String) :
    ∀ (l : List String) (hne : l ≠ []) (n total : Nat), n + l.length = total + 1 →
      processFrom true src n total l
        = (l.dropLast.map (fun d => (dest_with_ext d src, RenameAction.copied)))
          ++ [(dest_with_ext (l.getLast hne) src, RenameAction.moved)]
  | [], hne, _, _, _ => absurd rfl hne
  | [d], _, n, total, hsum => by
    have h : n = total := by
      simpa using hsum
    simp [processFrom, h]
  | d :: d' :: rest, _, n, total, hsum => by
    have hne' : d' :: rest ≠ [] := by simp
    have h1 : ¬ (n = total) := by
      simp only [List.length_cons] at hsum
      omega
    have hsum' : (n + 1) + (d' :: rest).length = total + 1 := by
      simp only [List.length_cons] at hsum ⊢
      omega
    have ih := processFrom_move src (d' :: rest) hne' (n + 1) total hsum'
    conv_lhs => rw [processFrom]
    rw [ih, List.getLast_cons hne']
    simp [h1, List.dropLast]

/-- The copy-mode destination loop copies every destination. -/
theorem processFrom_copy (src : String) :
    ∀ (l : List String) (n total : Nat),
      processFrom false src n total l
        = l.map (fun d => (dest_with_ext d src, RenameAction.copied))
  | [], _, _ => rfl
  | d :: rest, n, total => by
    simp only [processFrom, Bool.false_eq_true, false_and, if_false, List.map_cons]
    rw [processFrom_copy src rest (n + 1) total]

/-- Claim C10 (confirmed): in "move" mode a resolved source with N ≥ 1
destinations yields copies for the first N-1 destinations and a move for
exactly the last one, so all N destination files are produced and the
source is consumed exactly once; in "copy" mode every destination is a
copy and the source is never moved. -/
theorem C10_move_copy_semantics (src : String) (dests : List String) :
    (∀ hne : dests ≠ [],
      process_dests "move" src dests
        = (dests.dropLast.map (fun d => (dest_with_ext d src, RenameAction.copied)))
          ++ [(dest_with_ext (dests.getLast hne) src, RenameAction.moved)]) ∧
    process_dests "copy" src dests
      = dests.map (fun d => (dest_with_ext d src, RenameAction.copied)) := by
  constructor
  · intro hne
    unfold process_dests
    rw [show (("move" : String) == "move") = true from by decide]
    exact processFrom_move src dests hne 1 dests.length (by omega)
  · unfold process_dests
    rw [show (("copy" : String) == "move") = false from by decide]
    exact processFrom_copy src dests 1 dests.length

/-- Claim C10 witness: moving source "JS106537.png" to two destinations
copies the first and moves the second (extensions inherited from the
source), and copy mode copies both. -/
theorem C10_move_copy_semantics_witness :
    process_dests "move" "JS106537.png" ["Allen_1.jpg", "Allen_2.jpg"]
      = [("Allen_1.png", RenameAction.copied), ("Allen_2.png", RenameAction.moved)] ∧
    process_dests "copy" "JS106537.png" ["Allen_1.jpg", "Allen_2.jpg"]
      = [("Allen_1.png", RenameAction.copied), ("Allen_2.png", RenameAction.copied)] := by
  constructor
  · have h := (C10_move_copy_semantics "JS106537.png" ["Allen_1.jpg", "Allen_2.jpg"]).1
      (by decide)
    rw [h]
    decide
  · have h := (C10_move_copy_semantics "JS106537.png" ["Allen_1.jpg", "Allen_2.jpg"]).2
    rw [h]
    decide
